import Mathlib

/-!
Verification of the streaming response transcoder of `src/server.js`.

This file is a shallow embedding of the stream-handling core of the
OpenAI → NVIDIA NIM proxy (`src/server.js`, chat-completions handler,
streaming branch, lines 224–320), together with proofs about it.

Modelling conventions:
* JavaScript strings are Lean `String` (lists of characters); a byte
  chunk is modelled by the text `chunk.toString()` yields, so chunk
  boundaries are character boundaries.
* `JSON.parse` / `JSON.stringify` are modelled by an executable parser
  and serializer over an inductive `Json` type covering the fragment the
  protocol uses (objects, arrays, strings, integer numbers, booleans,
  null); parse failure is `Option.none`, which models the thrown
  exception that the handler catches.
* The per-request mutable state (`buffer`, `reasoningStarted`) is
  threaded explicitly; `res.write` calls are collected into a list of
  written frames, `res.end()` is a `closed` flag on the final outcome.
-/

namespace NimProxy

/-- Test that `p` is an initial segment of `l`
(character-list version of `String.prototype.startsWith`). -/
def lead : List Char → List Char → Bool
  | _, [] => true
  | [], _ :: _ => false
  | a :: as, b :: bs => a == b && lead as bs

/-- Test that `sub` occurs contiguously inside `l`
(character-list version of `String.prototype.includes`). -/
def listIncludes : List Char → List Char → Bool
  | [], sub => sub.isEmpty
  | l@(_ :: t), sub => lead l sub || listIncludes t sub

/-- Model of `line.includes(pat)`. -/
def includes (s pat : String) : Bool := listIncludes s.data pat.data

/-- Model of `line.startsWith(p)`. -/
def strLead (s p : String) : Bool := lead s.data p.data

/-- Model of `line.slice(n)`. -/
def sliceFrom (s : String) (n : Nat) : String := ⟨s.data.drop n⟩

/-- Whitespace as consumed by `String.prototype.trim` (ASCII part). -/
def isWs (c : Char) : Bool :=
  c == ' ' || c == '\t' || c == '\n' || c == '\r' || c == '\x0b' || c == '\x0c'

/-- Model of the guard `!line.trim()` (server.js 247): the line is
empty or consists of whitespace only. -/
def isBlank (s : String) : Bool := s.data.all isWs

/-- Model of `buffer.split('\n')` on a character list: `n` separators give
`n + 1` segments, exactly as the JS `split` with a one-character
separator (server.js 243). -/
def splitNl : List Char → List (List Char)
  | [] => [[]]
  | c :: t =>
    if c == '\n' then [] :: splitNl t
    else
      match splitNl t with
      | [] => [[c]]
      | h :: r => (c :: h) :: r

/-- One `data` event of the line framer (server.js 242–244):
`buffer += chunk; const lines = buffer.split('\n'); buffer = lines.pop() || ''`.
Returns the complete lines this chunk releases and the new buffer. -/
def frameStep (buf chunk : List Char) : List (List Char) × List Char :=
  let parts := splitNl (buf ++ chunk)
  (parts.dropLast, (parts.getLast?).getD [])

/-- The framer run over successive chunks, starting from buffer `buf`
(the handler is invoked once per chunk, with the buffer persisting). -/
def frameRunFrom (buf : List Char) : List (List Char) → List (List Char) × List Char
  | [] => ([], buf)
  | ch :: rest =>
    let st := frameStep buf ch
    let r := frameRunFrom st.2 rest
    (st.1 ++ r.1, r.2)

/-- The framer run for one request (`let buffer = ''`, server.js 231). -/
def frameRun (chunks : List (List Char)) : List (List Char) × List Char :=
  frameRunFrom [] chunks

/-- Equivalent one-pass formulation of `splitNl` + `pop`, used in proofs:
complete lines together with the trailing partial segment. -/
def splitTr : List Char → List (List Char) × List Char
  | [] => ([], [])
  | c :: t =>
    let p := splitTr t
    if c == '\n' then ([] :: p.1, p.2)
    else
      match p.1 with
      | [] => ([], c :: p.2)
      | h :: r => ((c :: h) :: r, p.2)

/-- Inverse of the newline split: re-joins segments with `'\n'`. -/
def joinNl : List (List Char) → List Char
  | [] => []
  | [x] => x
  | x :: r :: t => x ++ '\n' :: joinNl (r :: t)

/-! ## JSON values (model of the payloads `JSON.parse` produces) -/

mutual
/-- JSON values, as produced by the `JSON.parse` builtin on the
fragment the protocol uses.  Numbers are restricted to integers (the
inbound deltas carry only strings, objects and arrays). -/
inductive Json where
  | str (s : String)
  | num (n : Int)
  | jbool (b : Bool)
  | jnull
  | arr (elems : JList)
  | obj (fields : JFields)
/-- A list of JSON values (array elements). -/
inductive JList where
  | nil
  | cons (hd : Json) (tl : JList)
/-- Ordered fields of a JSON object (JS objects keep insertion order). -/
inductive JFields where
  | nil
  | cons (key : String) (val : Json) (tl : JFields)
end

/-- Property lookup `o[key]` on an object's field list. -/
def JFields.get : JFields → String → Option Json
  | .nil, _ => none
  | .cons k v t, key => if k == key then some v else t.get key

/-- Property assignment `o[key] = v`: overwrite in place if the key
exists (JS keeps the original insertion position), else append. -/
def JFields.set : JFields → String → Json → JFields
  | .nil, key, v => .cons key v .nil
  | .cons k w t, key, v => if k == key then .cons key v t else .cons k w (t.set key v)

/-- Deletion `delete o[key]`: remove the property (objects built by `JSON.parse`
and by `set` have unique keys, so at most one field matches). -/
def JFields.del : JFields → String → JFields
  | .nil, _ => .nil
  | .cons k v t, key => if k == key then t else .cons k v (t.del key)

/-- Is `key` among the fields? -/
def JFields.hasKey : JFields → String → Bool
  | .nil, _ => false
  | .cons k _ t, key => k == key || t.hasKey key

/-- All field keys are distinct (true of every object `JSON.parse`
yields, and preserved by `set` and `del`). -/
def JFields.nodupKeys : JFields → Bool
  | .nil => true
  | .cons k _ t => !(t.hasKey k) && t.nodupKeys

/-- Property access `j.key` (on a non-object it is `undefined`, here `none`). -/
def Json.getF : Json → String → Option Json
  | .obj fs, k => fs.get k
  | _, _ => none

/-- Property assignment `j.key = v`; assigning to a non-object is a
silent no-op in sloppy mode. -/
def Json.setF : Json → String → Json → Json
  | .obj fs, k, v => .obj (fs.set k v)
  | j, _, _ => j

/-- Deletion `delete j.key`; a no-op on non-objects. -/
def Json.delF : Json → String → Json
  | .obj fs, k => .obj (fs.del k)
  | j, _ => j

/-- JS truthiness of a value (`if (v)`); `undefined` is handled by
`jTruthy` below. -/
def Json.truthy : Json → Bool
  | .str s => s != ""
  | .num n => n != 0
  | .jbool b => b
  | .jnull => false
  | .arr _ => true
  | .obj _ => true

/-- Truthiness of a possibly-absent value (absent = `undefined` = falsy). -/
def jTruthy : Option Json → Bool
  | some j => j.truthy
  | none => false

mutual
/-- JS string coercion `'' + v` of a value of our `Json` type. -/
def Json.toStr : Json → String
  | .str s => s
  | .num n => toString n
  | .jbool true => "true"
  | .jbool false => "false"
  | .jnull => "null"
  | .arr l => l.toStrJoin
  | .obj _ => "[object Object]"
/-- Model of `Array.prototype.toString`: elements joined by `,`, with `null`
rendered as the empty string. -/
def JList.toStrJoin : JList → String
  | .nil => ""
  | .cons h .nil => (match h with | .jnull => "" | _ => h.toStr)
  | .cons h (.cons h2 t) =>
    (match h with | .jnull => "" | _ => h.toStr) ++ "," ++ JList.toStrJoin (.cons h2 t)
end

/-- String coercion of a possibly-absent value (`'' + undefined`). -/
def jCoerce : Option Json → String
  | some j => j.toStr
  | none => "undefined"

/-- The character `\x7b` (left curly brace), as a string. -/
def lb : String := "\x7b"

/-- The character `\x7d` (right curly brace), as a string. -/
def rb : String := "\x7d"

/-- The left curly brace character. -/
def lbChar : Char := Char.ofNat 123

/-- The right curly brace character. -/
def rbChar : Char := Char.ofNat 125

/-- Lowercase hex digit. -/
def hexDig (n : Nat) : Char :=
  if n < 10 then Char.ofNat (48 + n) else Char.ofNat (87 + n)

/-- Four lowercase hex digits (for `\uXXXX` escapes). -/
def hex4 (n : Nat) : String :=
  ⟨[hexDig (n / 4096 % 16), hexDig (n / 256 % 16), hexDig (n / 16 % 16), hexDig (n % 16)]⟩

/-- Escaping of one string character, as `JSON.stringify` does it. -/
def escChar (c : Char) : String :=
  if c == '"' then "\\\""
  else if c == '\\' then "\\\\"
  else if c == '\n' then "\\n"
  else if c == '\r' then "\\r"
  else if c == '\t' then "\\t"
  else if c == '\x08' then "\\b"
  else if c == '\x0c' then "\\f"
  else if c.toNat < 32 then "\\u" ++ hex4 c.toNat
  else ⟨[c]⟩

/-- Escaping of a string body, as `JSON.stringify` does it. -/
def escStr (s : String) : String := String.join (s.data.map escChar)

mutual
/-- Model of the `JSON.stringify` builtin on our `Json` type
(no indentation, keys in insertion order, exactly as JS). -/
def Json.stringify : Json → String
  | .str s => "\"" ++ escStr s ++ "\""
  | .num n => toString n
  | .jbool true => "true"
  | .jbool false => "false"
  | .jnull => "null"
  | .arr l => "[" ++ JList.strfy l ++ "]"
  | .obj fs => lb ++ JFields.strfy fs ++ rb
/-- Comma-separated serialization of array elements. -/
def JList.strfy : JList → String
  | .nil => ""
  | .cons h .nil => h.stringify
  | .cons h (.cons h2 t) => h.stringify ++ "," ++ JList.strfy (.cons h2 t)
/-- Comma-separated serialization of object fields. -/
def JFields.strfy : JFields → String
  | .nil => ""
  | .cons k v .nil => "\"" ++ escStr k ++ "\":" ++ v.stringify
  | .cons k v (.cons k2 v2 t) =>
    "\"" ++ escStr k ++ "\":" ++ v.stringify ++ "," ++ JFields.strfy (.cons k2 v2 t)
end

/-! ## A model of the `JSON.parse` builtin (recursive descent, fuelled) -/

/-- JSON insignificant whitespace. -/
def isJWs (c : Char) : Bool := c == ' ' || c == '\t' || c == '\n' || c == '\r'

/-- Skip insignificant whitespace. -/
def skipJWs : List Char → List Char
  | [] => []
  | c :: t => if isJWs c then skipJWs t else c :: t

/-- ASCII decimal digit? -/
def isDigit (c : Char) : Bool := 48 ≤ c.toNat && c.toNat ≤ 57

/-- Hex digit value. -/
def hexVal (c : Char) : Option Nat :=
  if 48 ≤ c.toNat && c.toNat ≤ 57 then some (c.toNat - 48)
  else if 97 ≤ c.toNat && c.toNat ≤ 102 then some (c.toNat - 87)
  else if 65 ≤ c.toNat && c.toNat ≤ 70 then some (c.toNat - 55)
  else none

/-- Parse the body of a JSON string (after the opening quote), handling
escape sequences; raw control characters are rejected as in JS. -/
def pStr : Nat → List Char → Option (String × List Char)
  | 0, _ => none
  | _ + 1, [] => none
  | f + 1, c :: t =>
    if c == '"' then some ("", t)
    else if c == '\\' then
      match t with
      | [] => none
      | e :: t2 =>
        let dec : Option (Char × List Char) :=
          if e == '"' then some ('"', t2)
          else if e == '\\' then some ('\\', t2)
          else if e == '/' then some ('/', t2)
          else if e == 'n' then some ('\n', t2)
          else if e == 't' then some ('\t', t2)
          else if e == 'r' then some ('\r', t2)
          else if e == 'b' then some ('\x08', t2)
          else if e == 'f' then some ('\x0c', t2)
          else if e == 'u' then
            match t2 with
            | h1 :: h2 :: h3 :: h4 :: t3 =>
              match hexVal h1, hexVal h2, hexVal h3, hexVal h4 with
              | some a, some b, some c2, some d =>
                some (Char.ofNat (a * 4096 + b * 256 + c2 * 16 + d), t3)
              | _, _, _, _ => none
            | _ => none
          else none
        match dec with
        | none => none
        | some (ch, rest) => (pStr f rest).map (fun r => (⟨ch :: r.1.data⟩, r.2))
    else if c.toNat < 32 then none
    else (pStr f t).map (fun r => (⟨c :: r.1.data⟩, r.2))

/-- Parse a JSON integer literal. -/
def pNum (l : List Char) : Option (Int × List Char) :=
  let p : Bool × List Char := match l with
    | c :: t => if c == '-' then (true, t) else (false, l)
    | [] => (false, [])
  let ds := p.2.takeWhile isDigit
  let rest := p.2.dropWhile isDigit
  if ds.isEmpty then none
  else
    let n : Nat := ds.foldl (fun a c => a * 10 + (c.toNat - 48)) 0
    some (if p.1 then -(n : Int) else (n : Int), rest)

mutual
/-- Parse one JSON value (fuelled recursive descent). -/
def pVal : Nat → List Char → Option (Json × List Char)
  | 0, _ => none
  | f + 1, l =>
    match skipJWs l with
    | [] => none
    | c :: t =>
      if c == '"' then (pStr f t).map (fun r => (.str r.1, r.2))
      else if c == lbChar then pObj f (skipJWs t)
      else if c == '[' then pArr f (skipJWs t)
      else if c == 't' then
        match t with
        | 'r' :: 'u' :: 'e' :: r => some (.jbool true, r)
        | _ => none
      else if c == 'f' then
        match t with
        | 'a' :: 'l' :: 's' :: 'e' :: r => some (.jbool false, r)
        | _ => none
      else if c == 'n' then
        match t with
        | 'u' :: 'l' :: 'l' :: r => some (.jnull, r)
        | _ => none
      else (pNum (c :: t)).map (fun r => (.num r.1, r.2))
/-- Parse an object body (input begins after `\x7b`, whitespace skipped). -/
def pObj : Nat → List Char → Option (Json × List Char)
  | 0, _ => none
  | f + 1, l =>
    match l with
    | [] => none
    | c :: t =>
      if c == rbChar then some (.obj .nil, t)
      else pMembers f l .nil
/-- Parse the members of a non-empty object; a duplicate key overwrites
the earlier value in place, as in JS. -/
def pMembers : Nat → List Char → JFields → Option (Json × List Char)
  | 0, _, _ => none
  | f + 1, l, acc =>
    match skipJWs l with
    | [] => none
    | c :: t =>
      if c == '"' then
        match pStr f t with
        | none => none
        | some (k, r1) =>
          match skipJWs r1 with
          | [] => none
          | c1 :: r2 =>
            if c1 == ':' then
              match pVal f r2 with
              | none => none
              | some (v, r3) =>
                let acc2 := acc.set k v
                match skipJWs r3 with
                | [] => none
                | c2 :: r4 =>
                  if c2 == ',' then pMembers f r4 acc2
                  else if c2 == rbChar then some (.obj acc2, r4)
                  else none
            else none
      else none
/-- Parse an array body (input begins after `[`, whitespace skipped). -/
def pArr : Nat → List Char → Option (Json × List Char)
  | 0, _ => none
  | f + 1, l =>
    match l with
    | [] => none
    | c :: t =>
      if c == ']' then some (.arr .nil, t)
      else (pElems f l).map (fun r => (.arr r.1, r.2))
/-- Parse the elements of a non-empty array. -/
def pElems : Nat → List Char → Option (JList × List Char)
  | 0, _ => none
  | f + 1, l =>
    match pVal f l with
    | none => none
    | some (v, r1) =>
      match skipJWs r1 with
      | [] => none
      | c :: r2 =>
        if c == ',' then (pElems f r2).map (fun r => (.cons v r.1, r.2))
        else if c == ']' then some (.cons v .nil, r2)
        else none
end

/-- Model of the `JSON.parse` builtin: parse one value, then require
only whitespace to remain; `none` models the thrown `SyntaxError`. -/
def jsonParse (s : String) : Option Json :=
  match pVal (s.data.length + 1) s.data with
  | some (v, rest) => if (skipJWs rest).isEmpty then some v else none
  | none => none

/-! ## The reasoning/content combiner and the per-line handler -/

/-- server.js 261–276, the `SHOW_REASONING` combiner: from the delta's
`reasoning_content` and `content` (possibly absent) and the current
`reasoningStarted` flag, compute `combinedContent` and the next flag.
The two sequential `if`/`else if` blocks of the source are the two
steps here (`p1` is the state after the reasoning block, in which
`reasoningStarted` has already been reassigned). -/
def combine (reasoning content : Option Json) (rs : Bool) : String × Bool :=
  let p1 : String × Bool :=
    if jTruthy reasoning && !rs then ("<think>\n" ++ jCoerce reasoning, true)
    else if jTruthy reasoning then (jCoerce reasoning, rs)
    else ("", rs)
  if jTruthy content && p1.2 then (p1.1 ++ "\n</think>\n\n" ++ jCoerce content, false)
  else if jTruthy content then (p1.1 ++ jCoerce content, p1.2)
  else p1

/-- server.js 257–290: the transformation applied to a truthy
`choices[0].delta`.  With `SHOW_REASONING` on, the combined text
replaces `content` and `reasoning_content` is deleted, but only when
the combined text is truthy (nonempty); with it off, `content` is
always (re)assigned — the inbound value if truthy, else `''` — and
`reasoning_content` is always deleted. -/
def transformDelta (showR : Bool) (delta : Json) (rs : Bool) : Json × Bool :=
  let reasoning := delta.getF "reasoning_content"
  let content := delta.getF "content"
  if showR then
    let p := combine reasoning content rs
    if p.1 != "" then (((delta.setF "content" (.str p.1)).delF "reasoning_content"), p.2)
    else (delta, p.2)
  else
    let c : Json := match content with
      | some j => if j.truthy then j else .str ""
      | none => .str ""
    (((delta.setF "content" c).delF "reasoning_content"), rs)

/-- Step `x?.[0]` of the optional-chain `data.choices?.[0]?.delta`:
element 0 of an array, property `"0"` of an object, nothing otherwise
(a string's character would have no `delta` property anyway). -/
def idx0 : Json → Option Json
  | .arr (.cons h _) => some h
  | .obj fs => fs.get "0"
  | _ => none

/-- The chain `data.choices?.[0]?.delta`. -/
def deltaOf (data : Json) : Option Json :=
  match data.getF "choices" with
  | some ch =>
    match idx0 ch with
    | some c0 => c0.getF "delta"
    | none => none
  | none => none

/-- Map the value of the first field with key `key` (identity if absent). -/
def JFields.mapVal : JFields → String → (Json → Json) → JFields
  | .nil, _, _ => .nil
  | .cons k v t, key, f => if k == key then .cons k (f v) t else .cons k v (t.mapVal key f)

/-- Apply `f` at position 0 of `choices` (array head or property `"0"`). -/
def mapAt0 (f : Json → Json) : Json → Json
  | .arr (.cons h t) => .arr (.cons (f h) t)
  | .obj fs => .obj (fs.mapVal "0" f)
  | j => j

/-- Write the mutated delta back at `data.choices[0].delta` (the source
mutates the delta object in place; parsed JSON is a tree, so replacing
it along the access path is equivalent). -/
def setDelta (data : Json) (d : Json) : Json :=
  match data with
  | .obj fs => .obj (fs.mapVal "choices" (mapAt0 (fun c0 => c0.setF "delta" d)))
  | j => j

/-- server.js 257–291: the `if (data.choices?.[0]?.delta)` block. -/
def transformData (showR : Bool) (data : Json) (rs : Bool) : Json × Bool :=
  match deltaOf data with
  | some d =>
    if d.truthy then
      let p := transformDelta showR d rs
      (setDelta data p.1, p.2)
    else (data, rs)
  | none => (data, rs)

/-- The literal termination event written by the handler. -/
def doneFrame : String := "data: [DONE]\n\n"

/-- server.js 246–299: processing of one complete line.  Blank lines
and lines without the `data: ` lead produce nothing; a line containing
`[DONE]` short-circuits to the termination event; otherwise the payload
is `JSON.parse`d (failure → raw pass-through) and the transformed event
is re-serialized and written as one frame. -/
def processLine (showR : Bool) (line : String) (rs : Bool) : List String × Bool :=
  if isBlank line then ([], rs)
  else if !(strLead line "data: ") then ([], rs)
  else if includes line "[DONE]" then ([doneFrame], rs)
  else
    match jsonParse (sliceFrom line 6) with
    | none => ([line ++ "\n\n"], rs)
    | some data =>
      let p := transformData showR data rs
      (["data: " ++ p.1.stringify ++ "\n\n"], p.2)

/-- The loop `lines.forEach(...)`: every completed line is processed in order,
threading the `reasoningStarted` flag. -/
def processLines (showR : Bool) : List String → Bool → List String × Bool
  | [], rs => ([], rs)
  | l :: t, rs =>
    let p := processLine showR l rs
    let q := processLines showR t p.2
    (p.1 ++ q.1, q.2)

/-- The per-request transcoder state: the line buffer and the
reasoning-open flag (server.js 231–232). -/
structure TState where
  buffer : List Char
  rs : Bool
deriving DecidableEq

/-- One `data` event: frame the chunk into lines and process them. -/
def processChunk (showR : Bool) (st : TState) (chunk : String) : List String × TState :=
  let fr := frameStep st.buffer chunk.data
  let p := processLines showR (fr.1.map (fun l => (⟨l⟩ : String))) st.rs
  (p.1, ⟨fr.2, p.2⟩)

/-- The transcoder run over the ordered chunk sequence of one request. -/
def runChunks (showR : Bool) : TState → List String → List String × TState
  | st, [] => ([], st)
  | st, c :: t =>
    let p := processChunk showR st c
    let q := runChunks showR p.2 t
    (p.1 ++ q.1, q.2)

/-- The synthetic closing frame written by the `end` handler when a
reasoning block is still open (server.js 309); the JS literal holds an
escaped backslash, so the wire bytes carry the JSON-encoded newline. -/
def autoCloseFrame : String :=
  "data: " ++ lb ++ "\"choices\":[" ++ lb ++ "\"delta\":" ++ lb ++
    "\"content\":\"\\n</think>\"" ++ rb ++ rb ++ "]" ++ rb ++ "\n\n"

/-- server.js 306–313, the `end` handler: auto-close an open reasoning
block, then write the termination event. -/
def finalizeEnd (rs : Bool) : List String :=
  (if rs then [autoCloseFrame] else []) ++ [doneFrame]

/-- server.js 317: the error frame `data: {"error": "${err.message}"}`. -/
def errorFrame (msg : String) : String :=
  "data: " ++ lb ++ "\"error\": \"" ++ msg ++ "\"" ++ rb ++ "\n\n"

/-- How the inbound source terminates: natural end or an error. -/
inductive Term where
  | ended
  | errored (msg : String)

/-- The sum of everything one request writes to the sink, and whether
the sink was closed (`res.end()`). -/
structure Outcome where
  writes : List String
  closed : Bool
deriving DecidableEq

/-- A full request: all chunks in order, then the terminal signal
(server.js 235–320).  Chunk processing never ends the response; both
terminal handlers write their frames and close the sink. -/
def runRequest (showR : Bool) (chunks : List String) (t : Term) : Outcome :=
  let p := runChunks showR ⟨[], false⟩ chunks
  match t with
  | .ended => ⟨p.1 ++ finalizeEnd p.2.rs, true⟩
  | .errored msg => ⟨p.1 ++ [errorFrame msg, doneFrame], true⟩

/-! ## Marker bookkeeping (for the reasoning-closure invariant) -/

/-- A `<think>` open marker is spliced into `combinedContent` exactly
when the branch of server.js 264–265 runs: reasoning truthy and the
flag down. -/
def openMarks (reasoning _content : Option Json) (rs : Bool) : Nat :=
  if jTruthy reasoning && !rs then 1 else 0

/-- A `</think>` close marker is spliced exactly when the branch of
server.js 271–272 runs: content truthy and the flag (as updated by the
reasoning step) up. -/
def closeMarks (reasoning content : Option Json) (rs : Bool) : Nat :=
  let rs1 := if jTruthy reasoning && !rs then true else rs
  if jTruthy content && rs1 then 1 else 0

/-- Open/close markers a single line contributes: only a parsed frame
with a truthy delta, in reasoning-display mode, can splice markers;
`[DONE]`, blank, non-`data`, unparseable and mode-off frames splice
none. -/
def lineMarks (showR : Bool) (line : String) (rs : Bool) : Nat × Nat :=
  if isBlank line then (0, 0)
  else if !(strLead line "data: ") then (0, 0)
  else if includes line "[DONE]" then (0, 0)
  else
    match jsonParse (sliceFrom line 6) with
    | none => (0, 0)
    | some data =>
      match deltaOf data with
      | some d =>
        if d.truthy then
          if showR then
            (openMarks (d.getF "reasoning_content") (d.getF "content") rs,
             closeMarks (d.getF "reasoning_content") (d.getF "content") rs)
          else (0, 0)
        else (0, 0)
      | none => (0, 0)

/-- Cumulative marker counts over a line sequence, threading the flag
exactly as `processLines` does. -/
def linesMarks (showR : Bool) : List String → Bool → Nat × Nat
  | [], _ => (0, 0)
  | l :: t, rs =>
    let m := lineMarks showR l rs
    let m2 := linesMarks showR t (processLine showR l rs).2
    (m.1 + m2.1, m.2 + m2.2)

/-- Numeric value of a flag: `if b then 1 else 0`. -/
def bitB (b : Bool) : Nat := if b then 1 else 0

/-! ## The combiner as the spec states it -/

/-- The spec's §4.3 truth table, written from the spec's words (for the
refinement comparison in claim C1): `r`/`c` are the reasoning and
content fragments, `none` meaning "not present". -/
def specCombine (r c : Option String) (rs : Bool) : String × Bool :=
  match r, c, rs with
  | some rv, none, false => ("<think>\n" ++ rv, true)
  | some rv, none, true => (rv, true)
  | some rv, some cv, false => ("<think>\n" ++ rv ++ "\n</think>\n\n" ++ cv, false)
  | some rv, some cv, true => (rv ++ "\n</think>\n\n" ++ cv, false)
  | none, some cv, true => ("\n</think>\n\n" ++ cv, false)
  | none, some cv, false => (cv, false)
  | none, none, b => ("", b)

/-! ## Concrete frames for the scenario, counterexamples and witnesses -/

/-- Scenario frame 1: `data: {"choices":[{"delta":{"reasoning_content":"ab"}}]}`. -/
def scenLine1 : String :=
  "data: " ++ lb ++ "\"choices\":[" ++ lb ++ "\"delta\":" ++ lb ++
    "\"reasoning_content\":\"ab\"" ++ rb ++ rb ++ "]" ++ rb

/-- Scenario frame 2: `data: {"choices":[{"delta":{"content":"X"}}]}`. -/
def scenLine2 : String :=
  "data: " ++ lb ++ "\"choices\":[" ++ lb ++ "\"delta\":" ++ lb ++
    "\"content\":\"X\"" ++ rb ++ rb ++ "]" ++ rb

/-- Expected outbound frame 1: content `<think>\nab`. -/
def wThink : String :=
  "data: " ++ lb ++ "\"choices\":[" ++ lb ++ "\"delta\":" ++ lb ++
    "\"content\":\"<think>\\nab\"" ++ rb ++ rb ++ "]" ++ rb ++ "\n\n"

/-- Expected outbound frame 2: content `\n</think>\n\nX`. -/
def wClose : String :=
  "data: " ++ lb ++ "\"choices\":[" ++ lb ++ "\"delta\":" ++ lb ++
    "\"content\":\"\\n</think>\\n\\nX\"" ++ rb ++ rb ++ "]" ++ rb ++ "\n\n"

/-- A frame whose delta carries `reasoning_content` as the empty
string: `data: {"choices":[{"delta":{"reasoning_content":""}}]}`. -/
def c3Line : String :=
  "data: " ++ lb ++ "\"choices\":[" ++ lb ++ "\"delta\":" ++ lb ++
    "\"reasoning_content\":\"\"" ++ rb ++ rb ++ "]" ++ rb

/-- A well-formed JSON data line that merely contains the sentinel text
as a substring: `data: {"x":"[DONE]"}`. -/
def c4Line : String := "data: " ++ lb ++ "\"x\":\"[DONE]\"" ++ rb

/-- The malformed line of the spec's pass-through property. -/
def c7Line : String := "data: \x7bnot json"

/-- One chunk carrying a sentinel line followed by a content frame. -/
def c8Chunk : String :=
  "data: [DONE]\ndata: " ++ lb ++ "\"choices\":[" ++ lb ++ "\"delta\":" ++ lb ++
    "\"content\":\"X\"" ++ rb ++ rb ++ "]" ++ rb ++ "\n"

/-- The content frame the transcoder emits for the second line of
`c8Chunk`. -/
def c8XFrame : String :=
  "data: " ++ lb ++ "\"choices\":[" ++ lb ++ "\"delta\":" ++ lb ++
    "\"content\":\"X\"" ++ rb ++ rb ++ "]" ++ rb ++ "\n\n"

/-- A delta carrying only `reasoning_content`, for witnesses. -/
def c6Fields : JFields := .cons "reasoning_content" (.str "abc") .nil

/-- A delta whose only field is an empty-string `reasoning_content`. -/
def c10Delta : Json := Json.obj (.cons "reasoning_content" (.str "") .nil)

/-! ## Lemmas about the line framer -/

theorem splitNl_ne_nil (l : List Char) : splitNl l ≠ [] := by
  cases l with
  | nil => simp [splitNl]
  | cons c t =>
    simp only [splitNl]
    split
    · simp
    · cases h : splitNl t <;> simp

/-- The one-pass `splitTr` computes the complete lines and the trailing segment of
`splitNl`. -/
theorem splitTr_eq (l : List Char) :
    splitTr l = ((splitNl l).dropLast, ((splitNl l).getLast?).getD []) := by
  induction l with
  | nil => rfl
  | cons c t ih =>
    by_cases hc : c = '\n'
    · subst hc
      cases h : splitNl t with
      | nil => exact absurd h (splitNl_ne_nil t)
      | cons s ss =>
        simp only [splitTr, splitNl, if_pos rfl, ih, h]
        cases ss <;> simp
    · have hc' : (c == '\n') = false := beq_eq_false_iff_ne.mpr hc
      cases h : splitNl t with
      | nil => exact absurd h (splitNl_ne_nil t)
      | cons s ss =>
        cases ss with
        | nil => simp [splitTr, splitNl, hc', ih, h]
        | cons s2 ss2 => simp [splitTr, splitNl, hc', ih, h]

/-- The trailing segment contains no newline. -/
theorem splitTr_trail_no_nl (l : List Char) : '\n' ∉ (splitTr l).2 := by
  induction l with
  | nil => simp [splitTr]
  | cons c t ih =>
    by_cases hc : c = '\n'
    · subst hc; simpa [splitTr] using ih
    · have hc' : (c == '\n') = false := by simpa using hc
      simp only [splitTr, hc']
      cases h : (splitTr t).1 with
      | nil =>
        simp only [Bool.false_eq_true, if_false, List.mem_cons]
        rintro (rfl | hm)
        · exact hc rfl
        · exact ih hm
      | cons h1 r => simpa [h] using ih

/-- A newline-free list is one (partial) segment. -/
theorem splitTr_no_nl (l : List Char) (h : '\n' ∉ l) : splitTr l = ([], l) := by
  induction l with
  | nil => rfl
  | cons c t ih =>
    have hc : c ≠ '\n' := fun e => h (e ▸ List.mem_cons_self c t)
    have hc' : (c == '\n') = false := beq_eq_false_iff_ne.mpr hc
    have ht : '\n' ∉ t := fun m => h (List.mem_cons_of_mem c m)
    simp [splitTr, hc', ih ht]

/-- Splitting an append: the trailing segment of `a` merges with the
first segment of `b`. -/
theorem splitTr_append (a b : List Char) :
    splitTr (a ++ b) =
      (match (splitTr b).1 with
       | [] => ((splitTr a).1, (splitTr a).2 ++ (splitTr b).2)
       | h :: r => ((splitTr a).1 ++ ((splitTr a).2 ++ h) :: r, (splitTr b).2)) := by
  induction a with
  | nil =>
    cases hB : (splitTr b).1 with
    | nil =>
      simp only [List.nil_append, hB, splitTr]
      rw [← hB]
    | cons h r =>
      simp only [List.nil_append, hB, splitTr]
      rw [← hB]
  | cons c t ih =>
    by_cases hc : c = '\n'
    · subst hc
      cases hB : (splitTr b).1 <;>
        simp_all [splitTr, List.cons_append]
    · have hc' : (c == '\n') = false := beq_eq_false_iff_ne.mpr hc
      cases hB : (splitTr b).1 with
      | nil =>
        cases hA : (splitTr t).1 <;>
          simp_all [splitTr, List.cons_append]
      | cons hb rb2 =>
        cases hA : (splitTr t).1 <;>
          simp_all [splitTr, List.cons_append]

/-- Decomposition used for chunked runs: splitting `a ++ b` is
splitting `a`, then splitting its retained trailing segment together
with `b`. -/
theorem splitTr_assoc (a b : List Char) :
    splitTr (a ++ b) =
      ((splitTr a).1 ++ (splitTr ((splitTr a).2 ++ b)).1,
       (splitTr ((splitTr a).2 ++ b)).2) := by
  have hA2 := splitTr_no_nl (splitTr a).2 (splitTr_trail_no_nl a)
  have h1 := splitTr_append a b
  have h2 := splitTr_append (splitTr a).2 b
  rw [hA2] at h2
  cases hB : (splitTr b).1 with
  | nil =>
    simp only [hB] at h1 h2
    simp [h1, h2]
  | cons hb rb2 =>
    simp only [hB] at h1 h2
    simp [h1, h2]

/-- The framer step is the one-pass split. -/
theorem frameStep_eq (buf chunk : List Char) :
    frameStep buf chunk = splitTr (buf ++ chunk) := by
  rw [splitTr_eq]; rfl

/-- Running the framer from a newline-free buffer over any chunk
sequence is the one-pass split of the buffer followed by the
concatenation of the chunks. -/
theorem frameRunFrom_eq (chunks : List (List Char)) :
    ∀ buf : List Char, '\n' ∉ buf →
      frameRunFrom buf chunks = splitTr (buf ++ chunks.flatten) := by
  induction chunks with
  | nil =>
    intro buf hb
    simp [frameRunFrom, splitTr_no_nl buf hb]
  | cons ch rest ih =>
    intro buf hb
    have hstep := frameStep_eq buf ch
    have htr : '\n' ∉ (splitTr (buf ++ ch)).2 := splitTr_trail_no_nl (buf ++ ch)
    have hrec := ih (splitTr (buf ++ ch)).2 htr
    have hassoc := splitTr_assoc (buf ++ ch) rest.flatten
    simp only [frameRunFrom, hstep, hrec, List.flatten_cons, ← List.append_assoc]
    rw [hassoc]

/-- Byte conservation of the one-pass split: re-joining the complete
lines and the trailing segment with newlines restores the input. -/
theorem joinNl_splitTr (l : List Char) :
    joinNl ((splitTr l).1 ++ [(splitTr l).2]) = l := by
  induction l with
  | nil => rfl
  | cons c t ih =>
    by_cases hc : c = '\n'
    · subst hc
      simp only [splitTr, if_pos rfl, List.cons_append]
      cases h : (splitTr t).1 with
      | nil =>
        simp only [h, List.nil_append] at ih ⊢
        have ih2 : (splitTr t).2 = t := by simpa [joinNl] using ih
        simp [joinNl, ih2]
      | cons s ss => simp only [h, List.cons_append] at ih ⊢; simp [joinNl, ih]
    · have hc' : (c == '\n') = false := beq_eq_false_iff_ne.mpr hc
      simp only [splitTr, hc', Bool.false_eq_true, if_false]
      cases h : (splitTr t).1 with
      | nil =>
        simp only [h, List.nil_append] at ih ⊢
        simpa [joinNl] using congrArg (c :: ·) ih
      | cons s ss =>
        simp only [h, List.cons_append] at ih ⊢
        cases ss with
        | nil => simpa [joinNl] using congrArg (c :: ·) ih
        | cons s2 ss2 => simpa [joinNl] using congrArg (c :: ·) ih

/-! ## Small string and field-list lemmas -/

theorem str_empty_append (s : String) : "" ++ s = s := rfl

theorem JFields.get_set_self : (fs : JFields) → (k : String) → (v : Json) →
    (fs.set k v).get k = some v
  | .nil, k, v => by simp [JFields.set, JFields.get]
  | .cons k2 w t, k, v => by
    by_cases h : (k2 == k) = true
    · simp [JFields.set, JFields.get, h]
    · simp only [Bool.not_eq_true] at h
      simp [JFields.set, JFields.get, h, JFields.get_set_self t k v]

theorem JFields.get_del_ne : (fs : JFields) → (k k2 : String) → k2 ≠ k →
    (fs.del k2).get k = fs.get k
  | .nil, k, k2, _ => by simp [JFields.del]
  | .cons k3 w t, k, k2, h => by
    by_cases h3 : (k3 == k2) = true
    · have e : k3 = k2 := beq_iff_eq.mp h3
      subst e
      have hne : (k3 == k) = false := beq_eq_false_iff_ne.mpr h
      simp [JFields.del, JFields.get, h3, hne]
    · simp only [Bool.not_eq_true] at h3
      simp only [JFields.del, JFields.get, h3, Bool.false_eq_true, if_false]
      by_cases hk : (k3 == k) = true
      · simp [JFields.get, hk]
      · simp only [Bool.not_eq_true] at hk
        simp [JFields.get, hk, JFields.get_del_ne t k k2 h]

theorem JFields.hasKey_false_get : (fs : JFields) → (k : String) →
    fs.hasKey k = false → fs.get k = none
  | .nil, k, _ => by simp [JFields.get]
  | .cons k2 w t, k, h => by
    simp only [JFields.hasKey, Bool.or_eq_false_iff] at h
    simp [JFields.get, h.1, JFields.hasKey_false_get t k h.2]

theorem JFields.get_del_self : (fs : JFields) → (k : String) →
    fs.nodupKeys = true → (fs.del k).get k = none
  | .nil, k, _ => by simp [JFields.del, JFields.get]
  | .cons k2 w t, k, h => by
    simp only [JFields.nodupKeys, Bool.and_eq_true, Bool.not_eq_true'] at h
    by_cases h2 : (k2 == k) = true
    · have e : k2 = k := beq_iff_eq.mp h2
      subst e
      simpa [JFields.del, h2] using JFields.hasKey_false_get t k2 h.1
    · simp only [Bool.not_eq_true] at h2
      simp [JFields.del, JFields.get, h2, JFields.get_del_self t k h.2]

theorem JFields.set_hasKey : (fs : JFields) → (k k2 : String) → (v : Json) →
    (fs.set k v).hasKey k2 = (fs.hasKey k2 || k == k2)
  | .nil, k, k2, v => by simp [JFields.set, JFields.hasKey]
  | .cons k3 w t, k, k2, v => by
    by_cases h3 : (k3 == k) = true
    · have e : k3 = k := beq_iff_eq.mp h3
      subst e
      simp only [JFields.set, h3, if_true, JFields.hasKey]
      cases hk : (k3 == k2) <;> simp [hk]
    · simp only [Bool.not_eq_true] at h3
      simp [JFields.set, h3, JFields.hasKey, JFields.set_hasKey t k k2 v, Bool.or_assoc]

theorem JFields.set_nodup : (fs : JFields) → (k : String) → (v : Json) →
    fs.nodupKeys = true → (fs.set k v).nodupKeys = true
  | .nil, k, v, _ => by simp [JFields.set, JFields.nodupKeys, JFields.hasKey]
  | .cons k2 w t, k, v, h => by
    simp only [JFields.nodupKeys, Bool.and_eq_true, Bool.not_eq_true'] at h
    by_cases h2 : (k2 == k) = true
    · have e : k2 = k := beq_iff_eq.mp h2
      subst e
      simp [JFields.set, h2, JFields.nodupKeys, h.1, h.2]
    · simp only [Bool.not_eq_true] at h2
      have hne : k ≠ k2 := fun e => by simp [e] at h2
      have hkk2 : (k == k2) = false := beq_eq_false_iff_ne.mpr hne
      simp [JFields.set, h2, JFields.nodupKeys, JFields.set_hasKey, h.1, h.2, hkk2,
        JFields.set_nodup t k v h.2]

/-! ## Claim C5: the line framer -/

/-- C5.  Line framer split-boundary invariance and byte conservation:
(1) delivering the input in arbitrary chunks yields the same lines and
final buffer as delivering it as one chunk; (2) a chunk completing no
full line yields nothing; (3) re-joining all yielded lines plus the
retained remainder with the consumed newline separators restores the
concatenation of all chunks — no byte dropped or duplicated. -/
theorem c5_framer (chunks : List (List Char)) :
    frameRun chunks = frameRun [chunks.flatten]
  ∧ (∀ buf ch : List Char, '\n' ∉ buf ++ ch → (frameStep buf ch).1 = [])
  ∧ joinNl ((frameRun chunks).1 ++ [(frameRun chunks).2]) = chunks.flatten := by
  have h1 : frameRun chunks = splitTr chunks.flatten := by
    simpa [frameRun] using frameRunFrom_eq chunks [] (by simp)
  have h2 : frameRun [chunks.flatten] = splitTr chunks.flatten := by
    simpa [frameRun] using frameRunFrom_eq [chunks.flatten] [] (by simp)
  refine ⟨h1.trans h2.symm, ?_, ?_⟩
  · intro buf ch hn
    rw [frameStep_eq, splitTr_no_nl _ hn]
  · rw [h1]
    exact joinNl_splitTr chunks.flatten

theorem c5_witness : (frameStep ['a'] ['b']).1 = [] :=
  (c5_framer []).2.1 ['a'] ['b'] (by decide)

/-! ## Marker accounting (towards claim C2) -/

/-- Each combiner step changes the flag exactly as the markers it
splices dictate: opens + flag-before = closes + flag-after. -/
theorem combine_marks (r c : Option Json) (rs : Bool) :
    openMarks r c rs + bitB rs = closeMarks r c rs + bitB ((combine r c rs).2) := by
  cases hr : jTruthy r <;> cases hc : jTruthy c <;> cases rs <;>
    simp [combine, openMarks, closeMarks, bitB, hr, hc]

/-- The flag after `transformDelta` is the combiner's flag in
reasoning-display mode and unchanged otherwise. -/
theorem transformDelta_snd (showR : Bool) (d : Json) (rs : Bool) :
    (transformDelta showR d rs).2 =
      if showR then (combine (d.getF "reasoning_content") (d.getF "content") rs).2
      else rs := by
  cases showR with
  | false => rfl
  | true =>
    simp only [transformDelta, if_true]
    split <;> rfl

/-- Per-line marker/flag bookkeeping. -/
theorem lineMarks_flag (showR : Bool) (line : String) (rs : Bool) :
    (lineMarks showR line rs).1 + bitB rs =
      (lineMarks showR line rs).2 + bitB ((processLine showR line rs).2) := by
  unfold lineMarks processLine
  by_cases h1 : isBlank line = true
  · simp [h1]
  · simp only [Bool.not_eq_true] at h1
    simp only [h1, Bool.false_eq_true, if_false]
    by_cases h2 : strLead line "data: " = true
    · simp only [h2, Bool.not_true, Bool.false_eq_true, if_false]
      by_cases h3 : includes line "[DONE]" = true
      · simp [h3]
      · simp only [Bool.not_eq_true] at h3
        simp only [h3, Bool.false_eq_true, if_false]
        cases hp : jsonParse (sliceFrom line 6) with
        | none => simp
        | some data =>
          simp only [transformData]
          cases hd : deltaOf data with
          | none => simp
          | some d =>
            by_cases ht : d.truthy = true
            · simp only [ht, if_true]
              cases showR with
              | false => simp [transformDelta_snd]
              | true =>
                simpa [transformDelta_snd] using
                  combine_marks (d.getF "reasoning_content") (d.getF "content") rs
            · simp only [Bool.not_eq_true] at ht
              simp [ht]
    · simp [h2]

/-- Cumulative marker/flag bookkeeping over a line sequence. -/
theorem linesMarks_flag (showR : Bool) (lines : List String) :
    ∀ rs, (linesMarks showR lines rs).1 + bitB rs =
      (linesMarks showR lines rs).2 + bitB ((processLines showR lines rs).2) := by
  induction lines with
  | nil => intro rs; simp [linesMarks, processLines]
  | cons l t ih =>
    intro rs
    have hl := lineMarks_flag showR l rs
    have ht := ih ((processLine showR l rs).2)
    simp only [linesMarks, processLines]
    omega

/-- C2.  Reasoning-closure invariant, in reasoning-display mode: over
any inbound event (line) sequence, the number of spliced `<think>` open
markers equals the number of spliced `</think>` close markers plus the
flag left at end of stream — and the `end` handler emits exactly that
one auto-close frame, so opens = closes counting the auto-close; and on
every prefix of the event sequence, closes ≤ opens ≤ closes + 1: at
most one reasoning block is open at a time, and every opened block is
closed before the stream terminates. -/
theorem c2_reasoning_closure (lines : List String) :
    ((linesMarks true lines false).1 =
      (linesMarks true lines false).2 + bitB ((processLines true lines false).2))
  ∧ ((finalizeEnd ((processLines true lines false).2)).length
      = 1 + bitB ((processLines true lines false).2))
  ∧ (∀ n : Nat,
      (linesMarks true (lines.take n) false).2 ≤ (linesMarks true (lines.take n) false).1
    ∧ (linesMarks true (lines.take n) false).1 ≤ (linesMarks true (lines.take n) false).2 + 1) := by
  refine ⟨?_, ?_, ?_⟩
  · have h := linesMarks_flag true lines false
    simpa [bitB] using h
  · cases hb : (processLines true lines false).2 <;> simp [finalizeEnd, bitB, hb]
  · intro n
    have h := linesMarks_flag true (lines.take n) false
    cases hb : (processLines true (lines.take n) false).2 <;>
      rw [hb] at h <;> simp [bitB] at h <;> omega

/-! ## Claim C1: the combiner is the spec's truth table -/

/-- C1.  With reasoning display enabled the combiner is exactly the
pure state-transition function of the spec's §4.3 truth table (for
deltas whose fields, when present, are nonempty text fragments — C10
covers the empty-string degeneracy), and the spec's three-frame
scenario (`reasoning "ab"`, then `content "X"`, then the sentinel)
produces outbound contents `<think>\nab`, `\n</think>\n\nX`, then the
termination sentinel. -/
theorem c1_combiner_truth_table :
    (∀ (r c : Option String) (rs : Bool), r ≠ some "" → c ≠ some "" →
      combine (r.map Json.str) (c.map Json.str) rs = specCombine r c rs)
  ∧ runChunks true ⟨[], false⟩ [scenLine1 ++ "\n", scenLine2 ++ "\n", "data: [DONE]\n"]
      = ([wThink, wClose, doneFrame], ⟨[], false⟩) := by
  constructor
  · rintro (_ | rv) (_ | cv) rs hr hc
    · cases rs <;> rfl
    · have hcv : (cv != "") = true := bne_iff_ne.mpr (fun e => hc (by rw [e]))
      cases rs <;>
        simp [combine, specCombine, jTruthy, Json.truthy, jCoerce, Json.toStr, hcv,
          str_empty_append]
    · have hrv : (rv != "") = true := bne_iff_ne.mpr (fun e => hr (by rw [e]))
      cases rs <;>
        simp [combine, specCombine, jTruthy, Json.truthy, jCoerce, Json.toStr, hrv,
          str_empty_append]
    · have hrv : (rv != "") = true := bne_iff_ne.mpr (fun e => hr (by rw [e]))
      have hcv : (cv != "") = true := bne_iff_ne.mpr (fun e => hc (by rw [e]))
      cases rs <;>
        simp [combine, specCombine, jTruthy, Json.truthy, jCoerce, Json.toStr, hrv, hcv,
          str_empty_append, String.append_assoc]
  · rfl

theorem c1_witness :
    combine ((some "r").map Json.str) none false = specCombine (some "r") none false :=
  c1_combiner_truth_table.1 (some "r") none false (by decide) (by decide)

/-! ## Claim C3: stripping of `reasoning_content` -/

/-- C3 counterexample.  The frame
`data: {"choices":[{"delta":{"reasoning_content":""}}]}` (reasoning
display on) is re-emitted verbatim, and the emitted frame's payload
still carries the `reasoning_content` field in its delta — the claim's
"always stripped, including frames whose combined outbound text is
empty" is false: the `if (combinedContent)` guard skips the `delete`. -/
theorem c3_cex :
    processLine true c3Line false = ([c3Line ++ "\n\n"], false)
  ∧ ((jsonParse (sliceFrom (c3Line ++ "\n\n") 6)).bind deltaOf).bind
      (fun d => d.getF "reasoning_content") = some (Json.str "") :=
  ⟨rfl, rfl⟩

/-- C3 amended.  `reasoning_content` is stripped from the outbound
delta whenever the mode-off branch runs, and, in reasoning-display
mode, whenever the combined text is nonempty; (only) a frame whose
combined text is empty keeps its delta unmodified. -/
theorem c3_amended (delta : Json) (rs : Bool)
    (hu : ∀ fs, delta = Json.obj fs → fs.nodupKeys = true) :
    ((transformDelta false delta rs).1.getF "reasoning_content" = none)
  ∧ ((combine (delta.getF "reasoning_content") (delta.getF "content") rs).1 ≠ "" →
      (transformDelta true delta rs).1.getF "reasoning_content" = none) := by
  constructor
  · cases delta with
    | obj fs =>
      have hget : ∀ v, ((fs.set "content" v).del "reasoning_content").get "reasoning_content"
          = none := fun v =>
        JFields.get_del_self (fs.set "content" v) "reasoning_content"
          (JFields.set_nodup fs "content" v (hu fs rfl))
      simpa [transformDelta, Json.getF, Json.setF, Json.delF] using hget _
    | str s => rfl
    | num n => rfl
    | jbool b => rfl
    | jnull => rfl
    | arr l => rfl
  · intro hne
    cases delta with
    | obj fs =>
      have hne2 : ¬ ((combine (fs.get "reasoning_content") (fs.get "content") rs).1 = "") := by
        simpa [Json.getF] using hne
      have hget : ∀ v, ((fs.set "content" v).del "reasoning_content").get "reasoning_content"
          = none := fun v =>
        JFields.get_del_self (fs.set "content" v) "reasoning_content"
          (JFields.set_nodup fs "content" v (hu fs rfl))
      simpa [transformDelta, Json.getF, Json.setF, Json.delF, hne2] using hget _
    | str s => simp [Json.getF, combine, jTruthy] at hne
    | num n => simp [Json.getF, combine, jTruthy] at hne
    | jbool b => simp [Json.getF, combine, jTruthy] at hne
    | jnull => simp [Json.getF, combine, jTruthy] at hne
    | arr l => simp [Json.getF, combine, jTruthy] at hne

theorem c3_witness :
    (transformDelta false (Json.obj c6Fields) false).1.getF "reasoning_content" = none :=
  (c3_amended (Json.obj c6Fields) false
    (fun fs h => by rw [← Json.obj.injEq c6Fields fs |>.mp h]; decide)).1

/-! ## Claim C4: termination classification -/

/-- A line with the `data: ` lead starts with `'d'`, so it is not blank. -/
theorem strLead_data_not_blank (line : String) (h : strLead line "data: " = true) :
    isBlank line = false := by
  rcases line with ⟨l⟩
  cases l with
  | nil => exact absurd h (by decide)
  | cons c t =>
    have h2 : ((c == 'd') && lead t ['a', 't', 'a', ':', ' ']) = true := h
    have hc : c = 'd' := beq_iff_eq.mp ((Bool.and_eq_true _ _).mp h2).1
    subst hc
    have hws : isWs 'd' = false := rfl
    simp [isBlank, hws]

/-- C4 counterexample.  The line `data: {"x":"[DONE]"}` has a
JSON-decodable payload that is not the sentinel, yet the handler
short-circuits it to the termination event: classification is by
`line.includes('[DONE]')`, not by payload equality with the sentinel. -/
theorem c4_cex :
    processLine true c4Line false = ([doneFrame], false)
  ∧ (jsonParse (sliceFrom c4Line 6)).isSome = true
  ∧ sliceFrom c4Line 6 ≠ "[DONE]" :=
  ⟨rfl, rfl, by decide⟩

/-- C4 amended.  A `data:`-prefixed line is classified Terminate — the
sentinel is written immediately, with no JSON decoding and the flag
unchanged — if and only if the line CONTAINS the sentinel text as a
substring; every other `data:` line is JSON-decoded (or, on decode
failure, passed through raw). -/
theorem c4_amended (showR : Bool) (line : String) (rs : Bool)
    (h : strLead line "data: " = true) :
    (includes line "[DONE]" = true → processLine showR line rs = ([doneFrame], rs))
  ∧ (includes line "[DONE]" = false →
      processLine showR line rs =
        match jsonParse (sliceFrom line 6) with
        | none => ([line ++ "\n\n"], rs)
        | some data =>
          (["data: " ++ (transformData showR data rs).1.stringify ++ "\n\n"],
           (transformData showR data rs).2)) := by
  have hb := strLead_data_not_blank line h
  constructor
  · intro hd
    simp [processLine, hb, h, hd]
  · intro hd
    simp only [processLine, hb, Bool.false_eq_true, if_false, h, Bool.not_true, hd]

theorem c4_witness : processLine true "data: [DONE]" false = ([doneFrame], false) :=
  (c4_amended true "data: [DONE]" false (by decide)).1 (by decide)

/-! ## Claim C6: mode-off guarantee -/

/-- C6.  With reasoning display disabled, for every parsed event
carrying a delta object: `reasoning_content` is absent from the
outbound delta, the reasoning-open flag is untouched, and the outbound
`content` field is always present — equal to the inbound content when
that is a string, and the explicit empty string when no content
arrived. -/
theorem c6_mode_off (fs : JFields) (rs : Bool) (hu : fs.nodupKeys = true) :
    ((transformDelta false (Json.obj fs) rs).1.getF "reasoning_content" = none)
  ∧ ((transformDelta false (Json.obj fs) rs).2 = rs)
  ∧ (∀ s, fs.get "content" = some (Json.str s) →
      (transformDelta false (Json.obj fs) rs).1.getF "content" = some (Json.str s))
  ∧ (fs.get "content" = none →
      (transformDelta false (Json.obj fs) rs).1.getF "content" = some (Json.str "")) := by
  have hget : ∀ v, ((fs.set "content" v).del "reasoning_content").get "reasoning_content"
      = none := fun v =>
    JFields.get_del_self (fs.set "content" v) "reasoning_content"
      (JFields.set_nodup fs "content" v hu)
  have hcontent : ∀ v, ((fs.set "content" v).del "reasoning_content").get "content"
      = some v := fun v => by
    rw [JFields.get_del_ne _ "content" "reasoning_content" (by decide)]
    exact JFields.get_set_self fs "content" v
  refine ⟨?_, rfl, ?_, ?_⟩
  · simpa [transformDelta, Json.getF, Json.setF, Json.delF] using hget _
  · intro s hs
    by_cases h0 : s = ""
    · subst h0
      simpa [transformDelta, Json.getF, Json.setF, Json.delF, hs, Json.truthy] using
        hcontent (Json.str "")
    · have ht : (s != "") = true := bne_iff_ne.mpr h0
      simpa [transformDelta, Json.getF, Json.setF, Json.delF, hs, Json.truthy, ht] using
        hcontent (Json.str s)
  · intro hs
    simpa [transformDelta, Json.getF, Json.setF, Json.delF, hs] using hcontent (Json.str "")

theorem c6_witness :
    (transformDelta false (Json.obj c6Fields) true).1.getF "content" = some (Json.str "") :=
  (c6_mode_off c6Fields true (by decide)).2.2.2 rfl

/-! ## Claim C7: malformed-frame pass-through -/

/-- C7.  The line `data: {not json` (sentinel-free, unparseable) is
forwarded raw as its own event with the flag untouched; fed together
with a termination line the output is exactly the raw line then the
termination event, and — whatever mode, state or following lines —
processing simply continues after the bad frame (the model is a total
function: nothing is thrown). -/
theorem c7_malformed_passthrough :
    processLines true [c7Line, "data: [DONE]"] false
      = ([c7Line ++ "\n\n", doneFrame], false)
  ∧ (∀ (showR : Bool) (rest : List String) (rs : Bool),
      processLines showR (c7Line :: rest) rs
        = ((c7Line ++ "\n\n") :: (processLines showR rest rs).1,
           (processLines showR rest rs).2)) := by
  constructor
  · rfl
  · intro showR rest rs
    have hl : processLine showR c7Line rs = ([c7Line ++ "\n\n"], rs) := rfl
    simp [processLines, hl]

/-! ## Claim C8: writes after the sentinel -/

/-- C8 counterexample.  A sentinel line arriving mid-stream does not
stop the stream: with a following content line in the same chunk and a
natural end, the sink receives the sentinel, then a further content
frame, then a second sentinel — refuting "once the termination sentinel
has been written no further frame (and no second sentinel) is
written". -/
theorem c8_cex :
    runRequest true [c8Chunk] Term.ended = ⟨[doneFrame, c8XFrame, doneFrame], true⟩ := rfl

/-- C8 amended.  A `[DONE]` line only short-circuits its own frame: the
sentinel is written at its position and the following lines are
processed and written exactly as if they started the stream from the
same flag state (so frames and a second sentinel can follow a mid-
stream sentinel); finalization itself runs once per request, at the
terminal signal, and closes the sink. -/
theorem c8_amended :
    (∀ (showR : Bool) (pre post : List String) (rs : Bool),
      processLines showR (pre ++ "data: [DONE]" :: post) rs
        = ((processLines showR pre rs).1 ++ doneFrame ::
             (processLines showR post (processLines showR pre rs).2).1,
           (processLines showR post (processLines showR pre rs).2).2))
  ∧ (∀ (showR : Bool) (chunks : List String) (t : Term),
      (runRequest showR chunks t).closed = true) := by
  constructor
  · intro showR pre post rs
    induction pre generalizing rs with
    | nil =>
      have hl : processLine showR "data: [DONE]" rs = ([doneFrame], rs) := rfl
      simp [processLines, hl]
    | cons l t ih => simp [processLines, ih]
  · intro showR chunks t
    cases t <;> rfl

/-! ## Claim C9: error finalization -/

/-- C9.  When the inbound source errors, the request writes — after
whatever the chunks produced — exactly one error-carrying frame holding
only the message, then the termination sentinel, and closes the sink.
The model is per-request (server.js 315–320), so the error is fatal
only to this request. -/
theorem c9_error_finalization (showR : Bool) (chunks : List String) (msg : String) :
    (runRequest showR chunks (.errored msg)).writes
      = (runChunks showR ⟨[], false⟩ chunks).1 ++ [errorFrame msg, doneFrame]
  ∧ (runRequest showR chunks (.errored msg)).closed = true :=
  ⟨rfl, rfl⟩

/-! ## Claim C10: empty strings behave as absent fields -/

/-- C10.  The combiner tests delta fields by truthiness, so an
empty-string `reasoning_content` or `content` behaves exactly like a
missing field; in particular an empty reasoning fragment never opens a
block or moves the flag, and a delta whose fields are all absent or
empty strings passes `transformDelta` (reasoning-display mode)
unmodified — the frame is re-serialized and forwarded as parsed. -/
theorem c10_empty_as_absent :
    (∀ (c : Option Json) (rs : Bool),
      combine (some (Json.str "")) c rs = combine none c rs)
  ∧ (∀ (r : Option Json) (rs : Bool),
      combine r (some (Json.str "")) rs = combine r none rs)
  ∧ (∀ (delta : Json) (rs : Bool),
      (delta.getF "content" = none ∨ delta.getF "content" = some (Json.str "")) →
      (delta.getF "reasoning_content" = none ∨
        delta.getF "reasoning_content" = some (Json.str "")) →
      transformDelta true delta rs = (delta, rs)) := by
  refine ⟨fun c rs => rfl, fun r rs => rfl, ?_⟩
  intro delta rs h1 h2
  have hc : jTruthy (delta.getF "content") = false := by
    rcases h1 with h | h <;> simp [h, jTruthy, Json.truthy]
  have hr : jTruthy (delta.getF "reasoning_content") = false := by
    rcases h2 with h | h <;> simp [h, jTruthy, Json.truthy]
  have hcomb : combine (delta.getF "reasoning_content") (delta.getF "content") rs
      = ("", rs) := by
    simp [combine, hr, hc]
  simp [transformDelta, hcomb]

theorem c10_witness : transformDelta true c10Delta false = (c10Delta, false) :=
  c10_empty_as_absent.2.2 c10Delta false (Or.inl rfl) (Or.inr rfl)

end NimProxy
